import Mathlib

/-!
Verification of the SteaneCode repository (`circuits.py`, `helper_functions.py`).

Bit strings over the characters '0'/'1' are embedded as `List Bool`
('0' ↔ `false`, '1' ↔ `true`).  Python functions that can `raise` are
embedded in `Except String`; the Python quirk of *returning* an
`Exception` object (in `string_ancilla_mask`) is embedded by a dedicated
sum type `MaskResult`, so that "returning an exception object" and
"raising" stay distinguishable.
-/

deriving instance DecidableEq for Except

namespace SteaneCode

/-- `helper_functions.string_reverse`: reverses a bit string. -/
def string_reverse (input_string : List Bool) : List Bool :=
  input_string.reverse

/-- The character-level body of the loop in `helper_functions.strings_AND_bitwise`:
`k = '0'`; `if i == '0': if j == '1': k = '1'`; `if i == '1': if j == '0': k = '1'`. -/
def bitwise_char (i j : Bool) : Bool :=
  let k := false
  let k := if i = false then (if j = true then true else k) else k
  let k := if i = true then (if j = false then true else k) else k
  k

/-- `helper_functions.strings_AND_bitwise`: raises when the lengths differ,
otherwise loops `count` over `range(len(string1))` building the output
character by character from `string1[count]` and `string2[count]`. -/
def strings_AND_bitwise (string1 string2 : List Bool) :
    Except String (List Bool) :=
  if string1.length ≠ string2.length then
    .error "When taking the logical AND of two strings they must both have the same length"
  else
    .ok ((List.range string1.length).map (fun count =>
      bitwise_char (string1.getD count false) (string2.getD count false)))

/-- A Python argument that is either an `int` or some non-integer value;
`string_ancilla_mask` checks `isinstance(·, int)` on its arguments. -/
inductive PyArg where
  | int (n : Int)
  | nonInt
  deriving DecidableEq, Repr

/-- The result of `helper_functions.string_ancilla_mask`: the function either
returns a bit string, or *returns* (not raises) an `Exception` object. -/
inductive MaskResult where
  | str (s : List Bool)
  | exc (msg : String)
  deriving DecidableEq, Repr

/-- Whether a `MaskResult` is a returned `Exception` object. -/
def MaskResult.isExc : MaskResult → Bool
  | .str _ => false
  | .exc _ => true

/-- `helper_functions.string_ancilla_mask`: builds `'0'*(length-1) + '1'` and
then, `location - 1` times, replaces the string by `string[1:7] + '0'`
(the Python slice `[1:7]` drops the first character and keeps at most the
next six).  All guard failures `return Exception(...)` instead of raising. -/
def string_ancilla_mask (location length : PyArg) : MaskResult :=
  match location with
  | .nonInt => .exc "Location of string must an integer when calculating ancilla mask"
  | .int loc =>
    match length with
    | .nonInt => .exc "Length of string must an integer when calculating ancilla mask"
    | .int len =>
      if loc < 1 then
        .exc "Location of string must be strictly positive when calculating ancilla mask"
      else if len < 1 then
        .exc "String length must be greater than 1 when calculating ancilla mask"
      else if len < loc then
        .exc "Location must be less than string length when calculating ancilla mask"
      else
        let string := (List.replicate (len - 1).toNat false) ++ [true]
        .str ((List.range (loc - 1).toNat).foldl
          (fun string _ => ((string.drop 1).take 6) ++ [false]) string)

/-- Python `int(bits, 2)` on a bit string. -/
def int_of_bits (bits : List Bool) : Int :=
  bits.foldl (fun acc b => 2 * acc + (if b then 1 else 0)) 0

/-- `helper_functions.correct_qubit`: returns the data string unchanged when
the ancilla reads `'000'`; otherwise reverses the ancilla, interprets it in
binary, builds the ancilla mask and applies `strings_AND_bitwise`.
A returned `Exception` object from `string_ancilla_mask` would make the
subsequent string operations fail, embedded as an error. -/
def correct_qubit (data_in ancilla : List Bool) (data_qubits : Int) :
    Except String (List Bool) :=
  if ancilla = [false, false, false] then
    .ok data_in
  else
    let bin_ancilla := string_reverse ancilla
    let int_ancilla := int_of_bits bin_ancilla
    match string_ancilla_mask (.int int_ancilla) (.int data_qubits) with
    | .exc msg => .error msg
    | .str ancilla_mask => strings_AND_bitwise data_in ancilla_mask

/-- Convert a Python bit-string literal to the `List Bool` embedding. -/
def bitsOfString (s : String) : List Bool :=
  s.data.map (fun c => c == '1')

/-- `helper_functions.validate_integer`: raises when the argument is not an
`int`; arguments in this embedding are typed integers, so it always succeeds. -/
def validate_integer (_number : Int) : Except String Unit :=
  .ok ()

/-- `helper_functions.flip_code_words`: flips every bit of every codeword.
The source's raise for a character outside '0'/'1' is unreachable in the
`List Bool` embedding. -/
def flip_code_words (codewords_in : List (List Bool)) : List (List Bool) :=
  codewords_in.map (fun items => items.map (fun bit => !bit))

/-- `helper_functions.get_parity_check_matrix`. -/
def get_parity_check_matrix : List (List Bool) :=
  [bitsOfString "0001111",
   bitsOfString "0110011",
   bitsOfString "1010101"]

/-- `helper_functions.get_codewords`. -/
def get_codewords : List (List Bool) :=
  [bitsOfString "0000000",
   bitsOfString "1010101",
   bitsOfString "0110011",
   bitsOfString "1100110",
   bitsOfString "0001111",
   bitsOfString "1011010",
   bitsOfString "0111100",
   bitsOfString "1101001"]

/-- `helper_functions.calculate_parity_matrix_totals`: number of 1-entries in
each column of the stored parity matrix. -/
def calculate_parity_matrix_totals : List Nat :=
  let parity_check_matrix := get_parity_check_matrix
  let n := (parity_check_matrix.headD []).length
  parity_check_matrix.foldl
    (fun parity_matrix_totals parity_string =>
      (List.range n).map (fun index =>
        parity_matrix_totals.getD index 0 +
          (if parity_string.getD index false then 1 else 0)))
    (List.replicate n 0)

/-- `helper_functions.calculate_simple_parity_bits`: positions whose column
total in the parity matrix is exactly two. -/
def calculate_simple_parity_bits : List Nat :=
  let parity_matrix_totals := calculate_parity_matrix_totals
  (parity_matrix_totals.enum.filterMap
    (fun p => if p.2 = 2 then some p.1 else none))

/-- Python's substring test `sub in s` for strings. -/
def substring_in (sub s : List Bool) : Bool :=
  (List.range (s.length + 1)).any (fun k => sub.isPrefixOf (s.drop k))

/-- `helper_functions.compute_string_validity`: classifies one reversed data
string against the codewords, returning `(valid, invalid, outside_codeword)`
increments.  Python list indexing is embedded with `Except` on out-of-range. -/
def compute_string_validity (value : Nat) (codewords : List (List Bool))
    (reversed_data_string : List Bool)
    (post_selection : Bool := false) (simple : Bool := false)
    (single : Bool := false) (single_bit : Nat := 0) :
    Except String (Nat × Nat × Nat) := do
  if simple then
    if post_selection then
      throw "simple and post selection algorithm are exclusive"
  if post_selection then
    let logical_zero := codewords
    let logical_one := flip_code_words codewords
    if reversed_data_string ∈ logical_zero then
      return (value, 0, 0)
    else if reversed_data_string ∈ logical_one then
      return (0, value, 0)
    else
      return (0, 0, value)
  else if simple then
    let simple_parity_bits := calculate_simple_parity_bits
    let parity ← simple_parity_bits.foldlM
      (fun (parity : Bool) bit_location => do
        match reversed_data_string.get? bit_location with
        | none => throw "IndexError: string index out of range"
        | some bit =>
          if bit = true then
            if parity = false then return true else return false
          else
            return parity)
      false
    -- `parity` is the one-character string '0' or '1' in the source
    if [parity] ∈ codewords then
      return (value, 0, 0)
    else
      return (0, value, 0)
  else if single then
    match reversed_data_string.get? single_bit with
    | none => throw "IndexError: string index out of range"
    | some bit =>
      if [bit] ∈ codewords then
        return (value, 0, 0)
      else
        return (0, value, 0)
  else
    if reversed_data_string ∈ codewords then
      return (value, 0, 0)
    else
      return (0, value, 0)

/-- The validation prologue of `helper_functions.count_valid_output_strings`
(the `validate_integer` call and the `single`/`simple` mode checks that run
before any counting). -/
def count_valid_output_strings_validation (codewords : List (List Bool))
    (post_selection simple single : Bool) (single_bit : Int) :
    Except String Unit := do
  let _ ← validate_integer single_bit
  if single then
    if codewords.length ≠ 1 then
      throw "Only send a one bit codeword with calculation using a single bit"
    if simple then
      throw "Validity calculation not designed for both simple algorithm and single_bit"
    if post_selection then
      throw "Validity calculation not designed for both post_selection and single_bit"
  if simple then
    if post_selection then
      throw "Validity calculation not designed for both post_selection and simple"
    if codewords.length ≠ 1 then
      throw "Only send a one bit codeword with simple calculation"
  return ()

/-- Keyword parameters of `helper_functions.process_FT_results` (with the
same defaults as the source). -/
structure FTParams where
  codewords : List (List Bool)
  data_meas_strings : List (List Bool) := [[false]]
  anc_zero : List Bool := [false]
  anc_one : List Bool := [true]
  data_qubits : Int := 7
  ancilla_start : Nat := 0
  data_meas_start : Nat := 0
  data_start : Nat := 0
  ancilla_types : Nat := 2
  ancilla_qubits : Nat := 0
  ancilla_meas_repeats : Nat := 1
  data_meas_qubits : Nat := 0
  data_meas_repeats : Nat := 0
  post_selection : Bool := false
  simple : Bool := false

/-- The running tallies of `process_FT_results` (its local counters). -/
structure FTState where
  count_valid : Nat := 0
  count_invalid : Nat := 0
  count_outside_codeword : Nat := 0
  ancilla_rejected : Nat := 0
  ancilla_accepted : Nat := 0
  data_rejected : Nat := 0
  data_accepted : Nat := 0
  deriving DecidableEq, Repr

/-- The value returned by `process_FT_results`, together with a flag
recording whether the "no strings accepted" diagnostic was printed. -/
structure FTResult where
  error_rate : ℚ
  rejected : Nat
  accepted : Nat
  valid : Nat
  invalid : Nat
  warned : Bool
  deriving DecidableEq, Repr

/-- `total_keys` as computed at the top of `process_FT_results`. -/
def FTParams.total_keys (p : FTParams) : Nat :=
  p.ancilla_types * p.ancilla_qubits * p.ancilla_meas_repeats
    + p.data_meas_qubits * p.data_meas_repeats + 1

/-- Python list indexing, embedded with an `IndexError` on out-of-range. -/
def pyGet (l : List (List Bool)) (i : Nat) : Except String (List Bool) :=
  match l.get? i with
  | some x => .ok x
  | none => .error "IndexError: list index out of range"

/-- One iteration of the `for string, value in counts.items()` loop of
`helper_functions.process_FT_results`.  A histogram key is embedded
pre-split into its whitespace-separated segments. -/
def process_FT_step (p : FTParams) (st : FTState)
    (entry : List (List Bool) × Nat) : Except String FTState := do
  let string := entry.1
  let value := entry.2
  let qubit_strings ← (List.range p.total_keys).mapM (fun i => pyGet string i)
  let data_string ← pyGet qubit_strings p.data_start
  let data_syndrome_strings ←
    (List.range' p.data_meas_start p.data_meas_repeats).mapM
      (fun i => do return string_reverse (← pyGet qubit_strings i))
  let data_OK ←
    if p.data_meas_repeats = 3 then
      pure (data_syndrome_strings.getD 2 [] ∈ p.data_meas_strings
        ∧ data_syndrome_strings.getD 1 [] ∈ p.data_meas_strings
        ∧ data_syndrome_strings.getD 0 [] ∈ p.data_meas_strings : Bool)
    else if p.data_meas_repeats = 0 then
      pure true
    else
      throw "At present only 3 or zero data measurements are coded for"
  if data_OK then
    let st := { st with data_accepted := st.data_accepted + value }
    let anc_meas_strings := [p.anc_zero, p.anc_one]
    -- each branch yields (ancilla_accepted, ancilla_rejected, ancilla_OK,
    -- corrected_data_string)
    let (ancilla_accepted, ancilla_rejected, ancilla_OK, corrected_data_string) ←
      if p.ancilla_qubits = 0 then
        -- no ancilla
        pure (st.data_accepted, 0, true, data_string)
      else if p.ancilla_qubits = 1 then
        -- simple case without fault tolerance.  No check on ancilla possible
        do
          if p.ancilla_meas_repeats ≠ 1 then
            throw "can not handle multiple measurements on one ancilla qubit"
          let ancilla ← pyGet qubit_strings p.ancilla_start
          let corrected ← correct_qubit data_string ancilla p.data_qubits
          pure (st.data_accepted, 0, true, corrected)
      else if p.ancilla_qubits = 3 then
        -- complex case with fault tolerance
        do
          let mut count_ancilla_OK : Nat := 0
          let mut X : List (List Bool) :=
            List.replicate p.ancilla_qubits []
          for i in List.range p.ancilla_types do
            for j in List.range p.ancilla_meas_repeats do
              let first := i * (p.ancilla_qubits * p.ancilla_meas_repeats)
                + j * p.ancilla_meas_repeats
              let second := first + 1
              let third := second + 1
              let qs_third ← pyGet qubit_strings third
              let qs_second ← pyGet qubit_strings second
              let qs_first ← pyGet qubit_strings first
              if qs_third = qs_second then
                if qs_second = qs_first then
                  if qs_first ∈ anc_meas_strings then
                    count_ancilla_OK := count_ancilla_OK + 1
                    if i = 0 then
                      -- only interested in X values; `in` on a string is
                      -- Python's substring test
                      if substring_in qs_first p.anc_zero then
                        if j < X.length then
                          X := X.set j [false]
                        else
                          throw "IndexError: list assignment index out of range"
                      else if substring_in qs_first p.anc_one then
                        if j < X.length then
                          X := X.set j [true]
                        else
                          throw "IndexError: list assignment index out of range"
                      else
                        throw "Error in processing strings for i, j, k"
          if count_ancilla_OK = p.ancilla_qubits * p.ancilla_types then
            -- always first three ancilla with Steane code
            let ancilla := X.getD 0 [] ++ X.getD 1 [] ++ X.getD 2 []
            let corrected ← correct_qubit data_string ancilla p.data_qubits
            pure (st.ancilla_accepted + value, st.ancilla_rejected, true,
                  corrected)
          else
            pure (st.ancilla_accepted, st.ancilla_rejected + value, false,
                  data_string)
      else
        throw "Can only process ancilla strings of 0, 1 or 3 qubits"
    let st := { st with ancilla_accepted := ancilla_accepted,
                        ancilla_rejected := ancilla_rejected }
    if ancilla_OK then
      let reversed_data_string := string_reverse corrected_data_string
      let (valid, invalid, outside_codeword) ←
        compute_string_validity value p.codewords reversed_data_string
          p.post_selection p.simple
      return { st with
        count_valid := st.count_valid + valid,
        count_invalid := st.count_invalid + invalid,
        count_outside_codeword := st.count_outside_codeword + outside_codeword }
    else
      return st
  else
    return { st with data_rejected := st.data_rejected + value }

/-- The loop of `process_FT_results` over all histogram entries. -/
def process_FT_loop (counts : List (List (List Bool) × Nat)) (p : FTParams) :
    Except String FTState :=
  counts.foldlM (process_FT_step p) {}

/-- The epilogue of `process_FT_results`: the error rate is
`count_invalid / ancilla_accepted` when `ancilla_accepted` is non-zero and
otherwise `0` with a printed diagnostic (recorded in `warned`); `rejected`
is the sum of the data-stage and ancilla-stage rejection tallies and
`accepted` is `ancilla_accepted`. -/
def process_FT_assemble (st : FTState) : FTResult :=
  if st.ancilla_accepted ≠ 0 then
    { error_rate := (st.count_invalid : ℚ) / (st.ancilla_accepted : ℚ),
      rejected := st.data_rejected + st.ancilla_rejected,
      accepted := st.ancilla_accepted,
      valid := st.count_valid,
      invalid := st.count_invalid,
      warned := false }
  else
    { error_rate := 0,
      rejected := st.data_rejected + st.ancilla_rejected,
      accepted := st.ancilla_accepted,
      valid := st.count_valid,
      invalid := st.count_invalid,
      warned := true }

/-- `helper_functions.process_FT_results`. -/
def process_FT_results (counts : List (List (List Bool) × Nat))
    (p : FTParams) : Except String FTResult := do
  let st ← process_FT_loop counts p
  return process_FT_assemble st

/-- `circuits.SteaneCodeLogicalQubit.validate_parity_matrix`, with the
constructor-derived quantities `num_data = len(parity_check_matrix[0])`
and `num_ancilla = len(parity_check_matrix)`.  Matrix and codeword entries
are kept as characters because the source checks them against '0'/'1'.
Note the innermost accumulation: `bit_store` is XORed with
`bool(int(codeword_bit))` and `bool(int(parity_bit))` for *every pair* of
a codeword character and a parity-row character. -/
def validate_parity_matrix (parity_check_matrix codewords : List (List Char))
    (ancilla : Bool) : Except String Unit := do
  let num_data := (parity_check_matrix.headD []).length
  let num_ancilla := parity_check_matrix.length
  if parity_check_matrix = [] then
    throw "Parity check matrix must be specified"
  for parity_string in parity_check_matrix do
    if parity_string.length ≠ num_data then
      throw "Parity check matrix rows incorrect length"
  if ancilla then
    if parity_check_matrix.length ≠ num_ancilla then
      throw "Parity check matrix has incorrect number of rows"
  for codeword_string in codewords do
    if codeword_string.length ≠ num_data then
      throw "Code word rows incorrect length"
    for parity_string in parity_check_matrix do
      let mut bit_store := false
      for codeword_bit_string in codeword_string do
        if codeword_bit_string ∉ ['0', '1'] then
          throw "Code word entries must be 0 or 1"
        for parity_bit_string in parity_string do
          if parity_bit_string ∉ ['0', '1'] then
            throw "Parity matrix entries must be 0 or 1"
          bit_store := xor (xor bit_store (codeword_bit_string == '1'))
            (parity_bit_string == '1')
      if bit_store then
        throw "Code word rows must be orthogonal to the parity matrix"
  return ()

/-- The mod-2 inner product as the spec words it: the XOR-reduction of the
elementwise AND of a parity row and a codeword. -/
def inner_product_mod2 (row codeword : List Bool) : Bool :=
  (List.zipWith (fun a b => a && b) row codeword).foldl xor false

/-- `circuits.SteaneCodeLogicalQubit._validate_logical_qubit_number` for a
qubit constructed with `d` logical qubits. -/
def validate_logical_qubit_number (d : Nat) (logical_qubit : Int) :
    Except String Unit := do
  let _ ← validate_integer logical_qubit
  if logical_qubit > d then
    throw "Logical operations must be on qubits initialised"
  if logical_qubit < 0 then
    throw "Logical qubit number must be positive"
  return ()

/-- The data-register list built by
`circuits.SteaneCodeLogicalQubit.define_registers`: one data register is
appended per `index1 in range(d)`, so `self.__data` has exactly `d` entries. -/
def data_registers (d : Nat) : List String :=
  (List.range d).map (fun index1 => "data " ++ toString index1)

/-! ## Circuit synthesis: `set_up_logical_zero` and `decode` -/

/-- A gate emitted on the data register by `set_up_logical_zero` / `decode`. -/
inductive PrepGate where
  | reset (q : Nat)
  | h (q : Nat)
  | cx (control target : Nat)
  deriving DecidableEq, Repr

/-- A controlled-X entry `[index, column_number]` of the `cx_gates` list. -/
abbrev CxGate := Nat × Nat

/-- The `parity_matrix_totals` list computed at the start of both
`set_up_logical_zero` and `decode` (per-column sums of the parity matrix). -/
def parity_matrix_totals_of (matrix : List (List Bool)) (num_data : Nat) :
    List Nat :=
  matrix.foldl
    (fun totals parity_string =>
      (List.range num_data).map (fun index =>
        totals.getD index 0 + (if parity_string.getD index false then 1 else 0)))
    (List.replicate num_data 0)

/-- The `duplicate_entries` scan shared by `set_up_logical_zero` and
`decode` (`reduced = True` only).  `h_qubit1` / `h_qubit2` are Python
locals that persist across loop iterations and raise `NameError` when read
before their first assignment; they are threaded as `Option` values. -/
def find_duplicate_entries (matrix : List (List Bool)) (totals : List Nat)
    (num_data num_ancilla : Nat) :
    Except String (List (CxGate × CxGate)) := do
  let mut h_qubit1 : Option Nat := none
  let mut h_qubit2 : Option Nat := none
  let mut duplicate_entries : List (CxGate × CxGate) := []
  for column_index1 in List.range num_ancilla do
    let parity_row1 := matrix.getD column_index1 []
    for bit_index in List.range num_data do
      if totals.getD bit_index 0 = 1 ∧ parity_row1.getD bit_index false = true then
        h_qubit1 := some bit_index
    for column_index2 in List.range' (column_index1 + 1)
        (num_ancilla - (column_index1 + 1)) do
      let parity_row2 := matrix.getD column_index2 []
      for bit_index in List.range num_data do
        if totals.getD bit_index 0 = 1 ∧ parity_row2.getD bit_index false = true then
          h_qubit2 := some bit_index
      let h1 ← match h_qubit1 with
        | some v => pure v
        | none => throw "NameError: h_qubit1 referenced before assignment"
      let h2 ← match h_qubit2 with
        | some v => pure v
        | none => throw "NameError: h_qubit2 referenced before assignment"
      let h_qubit_start := max h1 h2
      for bit_index in List.range' (h_qubit_start + 1)
          (num_data - (h_qubit_start + 1)) do
        let bit1 := parity_row1.getD bit_index false
        let bit2 := parity_row2.getD bit_index false
        if bit1 = true ∧ bit2 = true then
          duplicate_entries := duplicate_entries ++ [((h1, bit_index), (h2, bit_index))]
  return duplicate_entries

/-- The `removed_gates` / `cx_gates_added` computation shared by
`set_up_logical_zero` and `decode` (`reduced = True` only). -/
def compute_removed_added (duplicate_entries : List (CxGate × CxGate))
    (cx_gates : List CxGate) :
    Except String (List CxGate × List CxGate) := do
  let mut removed_gates : List CxGate := []
  let mut cx_gates_added : List CxGate := []
  let number_of_duplicates := duplicate_entries.length
  if number_of_duplicates % 2 ≠ 0 then
    throw "Expect an even number of entries in the duplicates."
  for index in List.range (number_of_duplicates / 2) do
    let support := duplicate_entries.getD (2 * index) ((0, 0), (0, 0))
    let duplicates := duplicate_entries.getD (2 * index + 1) ((0, 0), (0, 0))
    if duplicates.1 ∈ cx_gates ∧ duplicates.2 ∈ cx_gates then
      if duplicates.1 ∉ removed_gates ∧ duplicates.2 ∉ removed_gates then
        for i in List.range 2 do
          removed_gates := removed_gates ++ [if i = 0 then duplicates.1 else duplicates.2]
          if duplicates.1.2 ≠ duplicates.2.2 then
            throw "Error removing duplicates from parity matrix"
          if support.1.2 ≠ support.2.2 then
            throw "Error removing duplicates from parity matrix"
        cx_gates_added := cx_gates_added ++ [(support.1.2, duplicates.1.2)]
  return (removed_gates, cx_gates_added)

/-- `circuits.SteaneCodeLogicalQubit.set_up_logical_zero` as the sequence
of gates it emits on the data register of the chosen logical qubit. -/
def set_up_logical_zero_gates (matrix : List (List Bool)) (reduced : Bool) :
    Except String (List PrepGate) := do
  let num_data := (matrix.headD []).length
  let num_ancilla := matrix.length
  let totals := parity_matrix_totals_of matrix num_data
  let duplicate_entries ←
    if reduced then find_duplicate_entries matrix totals num_data num_ancilla
    else pure []
  let mut gates : List PrepGate := []
  let mut count := 0
  let mut cx_gates : List CxGate := []
  for index in List.range num_data do
    gates := gates ++ [.reset index]
    if totals.getD index 0 = 1 then
      count := count + 1
      gates := gates ++ [.h index]
      for parity_row in matrix do
        if parity_row.getD index false = true then
          for column_number in List.range num_data do
            if column_number ≠ index ∧ parity_row.getD column_number false = true then
              cx_gates := cx_gates ++ [(index, column_number)]
  if count ≠ num_ancilla then
    throw "Unable to construct matrix as parity matrix does not match the ancilla needed."
  let (removed_gates, cx_gates_added) ←
    if reduced then compute_removed_added duplicate_entries cx_gates
    else pure ([], [])
  for items in cx_gates do
    if items ∉ removed_gates then
      gates := gates ++ [.cx items.1 items.2]
  if reduced then
    for items in cx_gates_added do
      gates := gates ++ [.cx items.1 items.2]
  return gates

/-- `circuits.SteaneCodeLogicalQubit.decode` as the sequence of gates it
emits on the data register: no resets, the replacement `cx_gates_added`
block first (when `reduced`), then the surviving `cx_gates` in forward
order, then a Hadamard on each weight-1 column. -/
def decode_gates (matrix : List (List Bool)) (reduced : Bool) :
    Except String (List PrepGate) := do
  let num_data := (matrix.headD []).length
  let num_ancilla := matrix.length
  let totals := parity_matrix_totals_of matrix num_data
  let duplicate_entries ←
    if reduced then find_duplicate_entries matrix totals num_data num_ancilla
    else pure []
  let mut count := 0
  let mut cx_gates : List CxGate := []
  for index in List.range num_data do
    if totals.getD index 0 = 1 then
      count := count + 1
      for parity_row in matrix do
        if parity_row.getD index false = true then
          for column_number in List.range num_data do
            if column_number ≠ index ∧ parity_row.getD column_number false = true then
              cx_gates := cx_gates ++ [(index, column_number)]
  if count ≠ num_ancilla then
    throw "Unable to construct matrix as parity matrix does not match the ancilla needed."
  let (removed_gates, cx_gates_added) ←
    if reduced then compute_removed_added duplicate_entries cx_gates
    else pure ([], [])
  let mut gates : List PrepGate := []
  if reduced then
    for items in cx_gates_added do
      gates := gates ++ [.cx items.1 items.2]
  for items in cx_gates do
    if items ∉ removed_gates then
      gates := gates ++ [.cx items.1 items.2]
  for index in List.range num_data do
    if totals.getD index 0 = 1 then
      gates := gates ++ [.h index]
  return gates

/-! ## Unnormalised state-vector semantics for the prepare/decode gates

A basis state of the seven data qubits is the index `k < 128` whose bit
`i` is the value of data qubit `i`; a state is the table of integer
amplitudes over all 128 basis states.  The Hadamard is embedded without
its 1/√2 factor, so applying it twice doubles the amplitude. -/

/-- An (unnormalised, integer) amplitude table over the 128 data basis
states. -/
abbrev QState := List Int

/-- Basis index `k` with qubit `q` forced to `b`. -/
def withBit (k : Nat) (q : Nat) (b : Bool) : Nat :=
  if Nat.testBit k q = b then k else (if b then k + 2 ^ q else k - 2 ^ q)

/-- Apply one gate to an amplitude table.  `reset` is the projection onto
qubit `q` being `0`, which agrees with the Qiskit `reset` on every state
whose amplitude is supported on `q = 0` (the only way resets occur here:
they open the preparation circuit on the all-zero state).  A controlled-X
sends the amplitude of `s` to the amplitude of `s` with the target bit
XORed by the control bit. -/
def apply_gate (g : PrepGate) (ψ : QState) : QState :=
  match g with
  | .reset q => (List.range 128).map (fun k =>
      if Nat.testBit k q then 0 else ψ.getD k 0)
  | .h q => (List.range 128).map (fun k =>
      ψ.getD (withBit k q false) 0 +
        (if Nat.testBit k q then -1 else 1) * ψ.getD (withBit k q true) 0)
  | .cx control target => (List.range 128).map (fun k =>
      ψ.getD (withBit k target
        (xor (Nat.testBit k target) (Nat.testBit k control))) 0)

/-- Apply a gate list, first gate first. -/
def apply_gates (gates : List PrepGate) (ψ : QState) : QState :=
  gates.foldl (fun ψ g => apply_gate g ψ) ψ

/-- The state |0000000⟩. -/
def amp0 : QState := 1 :: List.replicate 127 0

/-- The gate list of an `Except`-valued synthesis result (`[]` on error). -/
def gatesOr (e : Except String (List PrepGate)) : List PrepGate :=
  match e with
  | .ok l => l
  | .error _ => []

/-! ## Error correction: `correct_errors` -/

/-- A qubit referenced by `correct_errors` (data, X-ancilla, Z-ancilla or
extra correction-helper ancilla of logical qubit 0). -/
inductive CQubit where
  | data (n : Nat)
  | mx (n : Nat)
  | mz (n : Nat)
  | extra (n : Nat)
  deriving DecidableEq, Repr

/-- A gate emitted by `correct_errors`. -/
inductive CGate where
  | x (q : CQubit)
  | h (q : CQubit)
  | cx (control target : CQubit)
  | cz (control target : CQubit)
  | ccx (control1 control2 target : CQubit)
  | mct (controls : List CQubit) (target : CQubit)
  deriving DecidableEq, Repr

/-- `circuits.SteaneCodeLogicalQubit._transpose_parity`. -/
def transpose_parity (matrix : List (List Bool)) (num_data num_ancilla : Nat) :
    List (List Bool) :=
  (List.range num_data).map (fun row_count =>
    (List.range num_ancilla).map (fun column_count =>
      (matrix.getD column_count []).getD row_count false))

/-- `circuits.SteaneCodeLogicalQubit.correct_errors` as the sequence of
gates it emits, for a qubit constructed with `extend_ancilla` as given.
The Python `first_bit`/`second_bit` sentinels (the string `'0'`, replaced
by integer indices on first assignment) are embedded as `Option Nat`;
indexing an ancilla register with the unreplaced string sentinel would
raise in Python and is embedded as an error. -/
def correct_errors_gates (matrix : List (List Bool)) (logical_qubit : Int)
    (mct : Bool) (extend_ancilla : Bool) : Except String (List CGate) := do
  if mct then
    if logical_qubit ∉ ([0, 1] : List Int) then
      throw "errors can only be corrected for one or two logical qubit at present"
  else
    if logical_qubit ≠ 0 then
      throw "errors can only be corrected for one logical qubit at present if mct as not used "
    if ¬ extend_ancilla then
      throw "extra ancilla are needed to correct errors without mct"
  let num_data := (matrix.headD []).length
  let num_ancilla := matrix.length
  let transpose := transpose_parity matrix num_data num_ancilla
  -- `qubit_data`: the per-qubit count of '1' entries in its transposed row
  let counts : List Nat := (List.range num_data).map (fun qubit =>
    ((transpose.getD qubit []).filter (fun bits => bits = true)).length)
  let mut gates : List CGate := []
  if mct then
    for qubit in List.range num_data do
      let bit_list := transpose.getD qubit []
      for bit_index in List.range num_ancilla do
        if bit_list.getD bit_index false = false then
          gates := gates ++ [.x (.mz bit_index)]
      gates := gates ++ [.mct [.mz 0, .mz 1, .mz 2] (.data qubit)]
      for bit_index in List.range num_ancilla do
        if bit_list.getD bit_index false = false then
          gates := gates ++ [.x (.mz bit_index)]
      for bit_index in List.range num_ancilla do
        if bit_list.getD bit_index false = false then
          gates := gates ++ [.x (.mx bit_index)]
      gates := gates ++ [.h (.data qubit)]
      gates := gates ++ [.mct [.mx 0, .mx 1, .mx 2] (.data qubit)]
      gates := gates ++ [.h (.data qubit)]
      for bit_index in List.range num_ancilla do
        if bit_list.getD bit_index false = false then
          gates := gates ++ [.x (.mx bit_index)]
    return gates
  else
    -- weight-1 corrections
    let mut single_CX_updates_list : List (Nat × Nat) := []
    for qubit in List.range num_data do
      let bit_list := transpose.getD qubit []
      let count := counts.getD qubit 0
      if count = 1 then
        for bit_index in List.range num_ancilla do
          if bit_list.getD bit_index false = true then
            gates := gates ++ [.cx (.mz bit_index) (.data qubit)]
            single_CX_updates_list := single_CX_updates_list ++ [(qubit, bit_index)]
            gates := gates ++ [.cz (.mx bit_index) (.data qubit)]
    -- weight-2 corrections
    let mut extra_ancilla := 0
    for qubit in List.range num_data do
      let bit_list := transpose.getD qubit []
      let count := counts.getD qubit 0
      if count = 2 then
        let mut first_bit : Option Nat := none
        let mut second_bit : Option Nat := none
        for _ in List.range num_ancilla do
          first_bit := none
          second_bit := none
          if count = 2 then
            for bit_index in List.range num_ancilla do
              if bit_list.getD bit_index false = true then
                if first_bit = none then
                  first_bit := some bit_index
                else
                  second_bit := some bit_index
        let fb ← match first_bit with
          | some v => pure v
          | none => throw "TypeError: ancilla register index is not an integer"
        let sb ← match second_bit with
          | some v => pure v
          | none => throw "TypeError: ancilla register index is not an integer"
        gates := gates ++ [.ccx (.mz fb) (.mz sb) (.extra extra_ancilla)]
        gates := gates ++ [.cx (.extra extra_ancilla) (.data qubit)]
        gates := gates ++ [.cz (.extra extra_ancilla) (.data qubit)]
        for items in single_CX_updates_list do
          let other_impacted_qubit := items.1
          let bit_index := items.2
          if fb = bit_index ∨ sb = bit_index then
            gates := gates ++ [.cx (.extra extra_ancilla) (.data other_impacted_qubit)]
            gates := gates ++ [.cz (.extra extra_ancilla) (.data other_impacted_qubit)]
        extra_ancilla := extra_ancilla + 1
    -- weight-3 corrections
    for qubit in List.range num_data do
      if counts.getD qubit 0 = 3 then
        gates := gates ++ [.ccx (.extra 0) (.extra 1) (.extra 3)]
        gates := gates ++ [.ccx (.extra 0) (.extra 2) (.extra 3)]
        gates := gates ++ [.ccx (.extra 1) (.extra 2) (.extra 3)]
        for gate_needed in List.range num_data do
          gates := gates ++ [.cx (.extra 3) (.data gate_needed)]
          gates := gates ++ [.cz (.extra 3) (.data gate_needed)]
    -- need to reverse CCX gates
    for qubit in List.range num_data do
      if counts.getD qubit 0 = 3 then
        gates := gates ++ [.ccx (.extra 0) (.extra 1) (.extra 3)]
        gates := gates ++ [.ccx (.extra 0) (.extra 2) (.extra 3)]
        gates := gates ++ [.ccx (.extra 1) (.extra 2) (.extra 3)]
    -- re-derive the weight-2 helper states
    extra_ancilla := 0
    for qubit in List.range num_data do
      let bit_list := transpose.getD qubit []
      let count := counts.getD qubit 0
      if count = 2 then
        let mut first_bit : Option Nat := none
        let mut second_bit : Option Nat := none
        for _ in List.range num_ancilla do
          first_bit := none
          second_bit := none
          if count = 2 then
            for bit_index in List.range num_ancilla do
              if bit_list.getD bit_index false = true then
                if first_bit = none then
                  first_bit := some bit_index
                else
                  second_bit := some bit_index
        let fb ← match first_bit with
          | some v => pure v
          | none => throw "TypeError: ancilla register index is not an integer"
        let sb ← match second_bit with
          | some v => pure v
          | none => throw "TypeError: ancilla register index is not an integer"
        gates := gates ++ [.ccx (.mz fb) (.mz sb) (.extra extra_ancilla)]
        extra_ancilla := extra_ancilla + 1
    return gates

/-! ### The claimed shape of the weight-2 correction network (spec side) -/

/-- Positions of the 1-bits of a transposed-parity row. -/
def one_positions (row : List Bool) : List Nat :=
  row.enum.filterMap (fun p => if p.2 then some p.1 else none)

/-- The claim's weight-1 correction table: for every data qubit whose
transposed row has exactly one 1-bit, the pair (qubit, that ancilla bit),
in qubit order. -/
def weight1_singles (transpose : List (List Bool)) : List (Nat × Nat) :=
  transpose.enum.filterMap (fun p =>
    match one_positions p.2 with
    | [b] => some (p.1, b)
    | _ => none)

/-- The claim's weight-2 qubit list: data qubits whose transposed row has
exactly two 1-bits, in qubit order. -/
def weight2_qubits (transpose : List (List Bool)) : List Nat :=
  transpose.enum.filterMap (fun p =>
    if (one_positions p.2).length = 2 then some p.1 else none)

/-- The network the claim describes for one weight-2 data qubit: a Toffoli
from the two relevant Z-ancilla bits into a fresh helper, controlled-X and
controlled-Z from the helper to the target, and the same controlled-X /
controlled-Z pair from the helper onto every earlier weight-1-corrected
qubit whose ancilla bit matches either of the two bits. -/
def weight2_claim_block (transpose : List (List Bool))
    (singles : List (Nat × Nat)) (helper qubit : Nat) : List CGate :=
  let ones := one_positions (transpose.getD qubit [])
  let f := ones.getD 0 0
  let s := ones.getD 1 0
  [.ccx (.mz f) (.mz s) (.extra helper),
   .cx (.extra helper) (.data qubit),
   .cz (.extra helper) (.data qubit)] ++
  (singles.filter (fun it => it.2 = f ∨ it.2 = s)).flatMap
    (fun it => [.cx (.extra helper) (.data it.1), .cz (.extra helper) (.data it.1)])

/-- The transposed Steane parity matrix. -/
def steane_transpose : List (List Bool) :=
  transpose_parity get_parity_check_matrix 7 3

/-- The weight-2 part of the claim's network for the Steane matrix. -/
def steane_weight2_claim_network : List CGate :=
  ((weight2_qubits steane_transpose).enum).flatMap
    (fun p => weight2_claim_block steane_transpose
      (weight1_singles steane_transpose) p.1 p.2)

/-- The weight-1 correction network (controlled-X from the single Z-ancilla
bit, controlled-Z from the corresponding X-ancilla bit). -/
def steane_weight1_network : List CGate :=
  (weight1_singles steane_transpose).flatMap
    (fun it => [.cx (.mz it.2) (.data it.1), .cz (.mx it.2) (.data it.1)])

/-- The weight-3 branch, its uncomputation and the re-derivation of the
weight-2 helpers, written out for the Steane matrix (data qubit 6 is the
only weight-3 qubit). -/
def steane_weight3_tail : List CGate :=
  [.ccx (.extra 0) (.extra 1) (.extra 3),
   .ccx (.extra 0) (.extra 2) (.extra 3),
   .ccx (.extra 1) (.extra 2) (.extra 3)] ++
  ((List.range 7).flatMap (fun q => [.cx (.extra 3) (.data q), .cz (.extra 3) (.data q)])) ++
  [.ccx (.extra 0) (.extra 1) (.extra 3),
   .ccx (.extra 0) (.extra 2) (.extra 3),
   .ccx (.extra 1) (.extra 2) (.extra 3)] ++
  [.ccx (.mz 1) (.mz 2) (.extra 0),
   .ccx (.mz 0) (.mz 2) (.extra 1),
   .ccx (.mz 0) (.mz 1) (.extra 2)]

/-! ## Remaining claim-side definitions -/

/-- Drop the reset gates from an emitted gate sequence. -/
def strip_resets (gates : List PrepGate) : List PrepGate :=
  gates.filter (fun g => match g with
    | .reset _ => false
    | _ => true)

/-- The Hadamard block of the Steane preparation/decode circuits (one
Hadamard per weight-1 column of the parity matrix, in column order). -/
def steane_h_block : List PrepGate :=
  [.h 0, .h 1, .h 3]

/-- The surviving `cx_gates` list of the Steane preparation/decode
circuits, for each setting of `reduced`. -/
def steane_cx_main : Bool → List PrepGate
  | false => [.cx 0 2, .cx 0 4, .cx 0 6, .cx 1 2, .cx 1 5, .cx 1 6,
              .cx 3 4, .cx 3 5, .cx 3 6]
  | true => [.cx 0 2, .cx 0 4, .cx 0 6, .cx 1 2, .cx 1 5, .cx 3 4, .cx 3 5]

/-- The replacement `cx_gates_added` block, for each setting of `reduced`. -/
def steane_cx_added : Bool → List PrepGate
  | false => []
  | true => [.cx 5 6]

/-- The one-hot mask of the given length whose single `true` sits at the
1-based position `k` counted from the right (Qiskit bit order). -/
def one_hot_mask (len k : Nat) : List Bool :=
  (List.range len).map (fun i => i = len - k)

/-- `correct_qubit` as the claim words it: the data string unchanged for an
all-zero ancilla, otherwise the data string with exactly one position
flipped — the position named by the reversed ancilla read as a 1-based
binary index. -/
def correct_qubit_claim (data_in ancilla : List Bool) (len : Nat) :
    List Bool :=
  if ancilla = [false, false, false] then data_in
  else
    List.zipWith xor data_in
      (one_hot_mask len (int_of_bits (string_reverse ancilla)).toNat)

/-- The argument combinations the claim about `string_ancilla_mask` covers:
a non-integer location or length, or `location < 1`, or `length < 1`, or
`length < location`. -/
def bad_mask_args (location length : PyArg) : Prop :=
  match location, length with
  | .nonInt, _ => True
  | .int _, .nonInt => True
  | .int loc, .int len => loc < 1 ∨ len < 1 ∨ len < loc

/-- The spec's six-entry scheme-B histogram, keys pre-split into their four
whitespace-separated segments. -/
def scheme_b_counts : List (List (List Bool) × Nat) :=
  [([bitsOfString "0000000", bitsOfString "0000000",
     bitsOfString "0000000", bitsOfString "0000000"], 1),
   ([bitsOfString "0011110", bitsOfString "0101101",
     bitsOfString "0110011", bitsOfString "1001011"], 2),
   ([bitsOfString "0011111", bitsOfString "0101101",
     bitsOfString "0110011", bitsOfString "1001011"], 4),
   ([bitsOfString "0011110", bitsOfString "0001101",
     bitsOfString "0110011", bitsOfString "1001011"], 8),
   ([bitsOfString "0011110", bitsOfString "0101101",
     bitsOfString "1111111", bitsOfString "1001011"], 16),
   ([bitsOfString "0011110", bitsOfString "0101101",
     bitsOfString "0000000", bitsOfString "1001111"], 32)]

/-- The basis-index permutation of a single gate: a controlled-X XORs the
control bit into the target bit; other gates are not permutations and are
mapped to the identity here. -/
def cx_map (g : PrepGate) (k : Nat) : Nat :=
  match g with
  | .cx control target =>
      withBit k target (xor (Nat.testBit k target) (Nat.testBit k control))
  | _ => k

/-- The basis-index transformation realised by a list of controlled-X
gates: reading the amplitude at index `k` after the list traces back
through the gates in reverse order. -/
def cx_action (gates : List PrepGate) (k : Nat) : Nat :=
  gates.foldr cx_map k

/-- Whether a gate is a controlled-X on the seven data qubits. -/
def isCxSmall (g : PrepGate) : Bool :=
  match g with
  | .cx _ target => decide (target < 7)
  | _ => false

/-- The reset/Hadamard prefix emitted by `set_up_logical_zero` for the
Steane matrix (resets interleaved with the weight-1 Hadamards). -/
def steane_prep_prefix : List PrepGate :=
  [.reset 0, .h 0, .reset 1, .h 1, .reset 2, .reset 3, .h 3,
   .reset 4, .reset 5, .reset 6]

/-- The state after the reset/Hadamard prefix on |0000000⟩: the uniform
superposition over qubits 0, 1 and 3 (basis indices with bits 0, 1, 3
free and the rest zero). -/
def steane_plus_state : QState :=
  (List.range 128).map (fun k =>
    if k ∈ [0, 1, 2, 3, 8, 9, 10, 11] then 1 else 0)

/-- The scheme-B configuration of the spec's example: three rounds of one
data-measurement qubit, data segment at position 3, no ancilla segments,
the codewords as the allowed data-measurement strings. -/
def scheme_b_params : FTParams :=
  { codewords := get_codewords,
    data_meas_strings := get_codewords,
    data_start := 3,
    data_meas_qubits := 1,
    data_meas_repeats := 3 }

/-! ## Helper lemmas -/

lemma bitwise_char_eq_xor : ∀ a b : Bool, bitwise_char a b = xor a b := by
  decide

lemma bitwise_map_eq_zipWith :
    ∀ s1 s2 : List Bool, s1.length = s2.length →
      (List.range s1.length).map (fun count =>
        bitwise_char (s1.getD count false) (s2.getD count false)) =
        List.zipWith (fun a b => xor a b) s1 s2 := by
  intro s1
  induction s1 with
  | nil =>
    intro s2 h
    cases s2 <;> simp_all
  | cons a t ih =>
    intro s2 h
    cases s2 with
    | nil => simp at h
    | cons b t2 =>
      have h' : t.length = t2.length := by simpa using h
      simp only [List.length_cons]
      rw [List.range_succ_eq_map]
      simp only [List.map_cons, List.map_map, List.zipWith_cons_cons,
        List.getD_cons_zero, Function.comp_def, List.getD_cons_succ]
      rw [bitwise_char_eq_xor, ih t2 h']

lemma withBit_lt_of_fin : ∀ (k : Fin 128) (t : Fin 7) (b : Bool),
    withBit k t b < 128 := by
  decide

lemma withBit_lt (k t : Nat) (hk : k < 128) (ht : t < 7) (b : Bool) :
    withBit k t b < 128 :=
  withBit_lt_of_fin ⟨k, hk⟩ ⟨t, ht⟩ b

lemma cx_map_lt (g : PrepGate) (hg : isCxSmall g = true) (k : Nat)
    (hk : k < 128) : cx_map g k < 128 := by
  cases g with
  | cx c t => exact withBit_lt k t hk (of_decide_eq_true hg) _
  | reset q => simp [isCxSmall] at hg
  | h q => simp [isCxSmall] at hg

lemma cx_action_lt : ∀ (gates : List PrepGate),
    (∀ g ∈ gates, isCxSmall g = true) →
    ∀ k, k < 128 → cx_action gates k < 128 := by
  intro gates
  induction gates with
  | nil => intro _ k hk; exact hk
  | cons g gs ih =>
    intro h k hk
    exact cx_map_lt g (h g (List.mem_cons_self g gs)) _
      (ih (fun g' hg' => h g' (List.mem_cons_of_mem g hg')) k hk)

lemma map_range_getD (f : Nat → Int) (k : Nat) (hk : k < 128) :
    ((List.range 128).map f).getD k 0 = f k := by
  rw [List.getD_eq_getElem?_getD, List.getElem?_map, List.getElem?_range hk]
  rfl

lemma apply_gate_cx_getD (c t : Nat) (ψ : QState) (k : Nat) (hk : k < 128) :
    (apply_gate (.cx c t) ψ).getD k 0 = ψ.getD (cx_map (.cx c t) k) 0 := by
  simp only [apply_gate, cx_map]
  exact map_range_getD _ k hk

lemma apply_gates_cx_getD : ∀ (gates : List PrepGate),
    (∀ g ∈ gates, isCxSmall g = true) →
    ∀ (ψ : QState) (k : Nat), k < 128 →
      (apply_gates gates ψ).getD k 0 = ψ.getD (cx_action gates k) 0 := by
  intro gates
  induction gates with
  | nil => intro _ ψ k _; rfl
  | cons g gs ih =>
    intro h ψ k hk
    have hg := h g (List.mem_cons_self g gs)
    have hgs := fun g' hg' => h g' (List.mem_cons_of_mem g hg')
    show (apply_gates gs (apply_gate g ψ)).getD k 0 = _
    rw [ih hgs _ k hk]
    cases g with
    | cx c t => exact apply_gate_cx_getD c t ψ _ (cx_action_lt gs hgs k hk)
    | reset q => simp [isCxSmall] at hg
    | h q => simp [isCxSmall] at hg

lemma apply_gate_length (g : PrepGate) (ψ : QState) :
    (apply_gate g ψ).length = 128 := by
  cases g <;> simp [apply_gate]

lemma apply_gates_length : ∀ (gates : List PrepGate) (ψ : QState),
    gates ≠ [] → (apply_gates gates ψ).length = 128 := by
  intro gates
  induction gates with
  | nil => intro ψ h; exact absurd rfl h
  | cons g gs ih =>
    intro ψ _
    cases gs with
    | nil => exact apply_gate_length g ψ
    | cons g2 gs2 => exact ih (apply_gate g ψ) (by simp)

lemma apply_gates_append (l1 l2 : List PrepGate) (ψ : QState) :
    apply_gates (l1 ++ l2) ψ = apply_gates l2 (apply_gates l1 ψ) := by
  simp [apply_gates, List.foldl_append]

lemma qstate_ext (l1 l2 : QState) (h1 : l1.length = 128)
    (h2 : l2.length = 128)
    (h : ∀ k : Fin 128, l1.getD k 0 = l2.getD k 0) : l1 = l2 := by
  apply List.ext_getElem (h1.trans h2.symm)
  intro i hi1 hi2
  have hi : i < 128 := h1 ▸ hi1
  have := h ⟨i, hi⟩
  rwa [List.getD_eq_getElem?_getD, List.getD_eq_getElem?_getD,
    List.getElem?_eq_getElem hi1, List.getElem?_eq_getElem hi2] at this

/-! ## Claim theorems -/

/-- C1: the claim states that `validate_parity_matrix` accepts exactly the
orthogonal matrix/codeword pairs.  The code is wrong: its accumulator XORs
`bool(int(c)) ^ bool(int(p))` over *every pair* of characters, which equals
`len * (weight c + weight p) mod 2` and is unrelated to the mod-2 inner
product.  Witnessed here both ways on one-row matrices: the pair
`('110', '101')` has inner product 1 yet passes, and the orthogonal pair
`('100', '011')` is rejected with the orthogonality error. -/
theorem validate_parity_matrix_is_not_orthogonality :
    validate_parity_matrix [['1', '1', '0']] [['1', '0', '1']] true = .ok () ∧
    inner_product_mod2 [true, true, false] [true, false, true] = true ∧
    validate_parity_matrix [['1', '0', '0']] [['0', '1', '1']] true =
      .error "Code word rows must be orthogonal to the parity matrix" ∧
    inner_product_mod2 [true, false, false] [false, true, true] = false := by
  decide

/-- C2 (counterexample): `decode` does *not* emit the preparation sequence
in reverse application order.  For the Steane matrix with `reduced = False`,
the decode gate list differs both from the reversed reset-free preparation
list and from "the controlled-X list with gate order reversed followed by
the weight-1 Hadamards": the controlled-X gates come out in the same
forward order as in preparation. -/
theorem decode_not_reverse_of_preparation :
    decode_gates get_parity_check_matrix false ≠
      (set_up_logical_zero_gates get_parity_check_matrix false).map
        (fun gs => (strip_resets gs).reverse) ∧
    decode_gates get_parity_check_matrix false ≠
      (set_up_logical_zero_gates get_parity_check_matrix false).map
        (fun gs =>
          ((strip_resets gs).filter (fun g => match g with
            | .cx _ _ => true
            | _ => false)).reverse ++
          (strip_resets gs).filter (fun g => match g with
            | .h _ => true
            | _ => false)) := by
  decide

set_option maxRecDepth 100000 in
set_option maxHeartbeats 8000000 in
/-- C2 (amended): for the Steane parity matrix and both settings of
`reduced`, `decode` emits the replacement controlled-X block first, then
the same surviving controlled-X list in the same *forward* order as
preparation, then the weight-1 Hadamards, omitting the resets; and
preparation followed by decode is the identity on the data qubits:
simulating both on |0000000⟩ returns the state 8·|0000000⟩ (the factor 8
is the normalisation of the six unnormalised Hadamards), i.e. every data
qubit ends in |0⟩ with probability 1.  The round trip is proved by
factoring both circuits through the plus-state after the reset/Hadamard
prefix: the combined controlled-X network acts on basis indices as the
identity permutation, and the remaining Hadamards square to 2 per qubit. -/
theorem decode_forward_order_and_round_trip :
    ∀ reduced : Bool,
      decode_gates get_parity_check_matrix reduced =
        .ok (steane_cx_added reduced ++ steane_cx_main reduced ++ steane_h_block) ∧
      (set_up_logical_zero_gates get_parity_check_matrix reduced).map strip_resets =
        .ok (steane_h_block ++ steane_cx_main reduced ++ steane_cx_added reduced) ∧
      apply_gates (gatesOr (decode_gates get_parity_check_matrix reduced))
          (apply_gates
            (gatesOr (set_up_logical_zero_gates get_parity_check_matrix reduced))
            amp0) =
        (8 : Int) :: List.replicate 127 0 := by
  intro reduced
  refine ⟨by cases reduced <;> decide, by cases reduced <;> decide, ?_⟩
  have hP : apply_gates steane_prep_prefix amp0 = steane_plus_state := by
    decide
  have hH : apply_gates steane_h_block steane_plus_state =
      (8 : Int) :: List.replicate 127 0 := by
    decide
  have hplus_len : steane_plus_state.length = 128 := by
    simp [steane_plus_state]
  have key : ∀ cxPrep cxDec : List PrepGate,
      gatesOr (set_up_logical_zero_gates get_parity_check_matrix reduced) =
        steane_prep_prefix ++ cxPrep →
      gatesOr (decode_gates get_parity_check_matrix reduced) =
        cxDec ++ steane_h_block →
      (∀ g ∈ cxPrep ++ cxDec, isCxSmall g = true) →
      (∀ k : Fin 128, cx_action (cxPrep ++ cxDec) (k : Nat) = k) →
      cxPrep ++ cxDec ≠ [] →
      apply_gates (gatesOr (decode_gates get_parity_check_matrix reduced))
          (apply_gates
            (gatesOr (set_up_logical_zero_gates get_parity_check_matrix reduced))
            amp0) =
        (8 : Int) :: List.replicate 127 0 := by
    intro cxPrep cxDec hprep hdec hsmall hperm hne
    have hT : apply_gates (cxPrep ++ cxDec) steane_plus_state =
        steane_plus_state := by
      apply qstate_ext _ _ (apply_gates_length _ _ hne) hplus_len
      intro k
      rw [apply_gates_cx_getD _ hsmall _ _ k.isLt, hperm k]
    rw [hprep, hdec, apply_gates_append steane_prep_prefix cxPrep, hP,
      apply_gates_append cxDec steane_h_block,
      ← apply_gates_append cxPrep cxDec, hT, hH]
  cases reduced
  · exact key (steane_cx_main false ++ steane_cx_added false)
      (steane_cx_added false ++ steane_cx_main false)
      (by decide) (by decide) (by decide) (by decide) (by decide)
  · exact key (steane_cx_main true ++ steane_cx_added true)
      (steane_cx_added true ++ steane_cx_main true)
      (by decide) (by decide) (by decide) (by decide) (by decide)

/-- C3: for the Steane matrix, the non-MCT `correct_errors` emits, for
every data qubit whose transposed-parity row has exactly two 1-bits, a
Toffoli from the two corresponding Z-ancilla bits into a fresh helper
ancilla, controlled-X and controlled-Z from that helper to the target, and
the same controlled-X/controlled-Z pair from the helper onto every earlier
weight-1-corrected qubit whose ancilla bit matches either of the two bits
(`steane_weight2_claim_network` is built from exactly that description). -/
theorem correct_errors_weight_two_network :
    correct_errors_gates get_parity_check_matrix 0 false true =
      .ok (steane_weight1_network ++ steane_weight2_claim_network ++
        steane_weight3_tail) := by
  decide

/-- C4: on the spec's six-entry scheme-B histogram with three
data-measurement rounds, `process_FT_results` returns valid = 3,
invalid = 32, accepted = 35 and rejected = 28. -/
theorem process_FT_results_scheme_b_example :
    (process_FT_results scheme_b_counts scheme_b_params).map
      (fun r => (r.valid, r.invalid, r.accepted, r.rejected)) =
      .ok (3, 32, 35, 28) := by
  decide

set_option maxRecDepth 10000 in
/-- C5: for every 7-bit data string and every 3-bit ancilla string,
`correct_qubit` returns the data unchanged on the all-zero ancilla and
otherwise flips exactly the position indexed (1-based, from the right) by
the reversed ancilla read in binary; in particular
`correct_qubit("0011100", "010", 7) = "0011110"`. -/
theorem correct_qubit_flips_indexed_position :
    (∀ (d : Fin 7 → Bool) (a : Fin 3 → Bool),
        correct_qubit (List.ofFn d) (List.ofFn a) 7 =
          .ok (correct_qubit_claim (List.ofFn d) (List.ofFn a) 7)) ∧
    correct_qubit (bitsOfString "0011100") (bitsOfString "010") 7 =
      .ok (bitsOfString "0011110") := by
  decide

/-- C6: whenever the entry loop of `process_FT_results` succeeds, the
function returns (rather than raising) a result whose error rate is
invalid/accepted when the accepted count is non-zero, and 0 together with
the printed diagnostic when the accepted count is zero; the rejected count
is the sum of the data-stage and ancilla-stage rejection tallies. -/
theorem process_FT_results_error_rate_and_rejected :
    ∀ (counts : List (List (List Bool) × Nat)) (p : FTParams) (st : FTState),
      process_FT_loop counts p = .ok st →
      process_FT_results counts p = .ok (process_FT_assemble st) ∧
      ((process_FT_assemble st).accepted ≠ 0 →
        (process_FT_assemble st).error_rate =
          ((process_FT_assemble st).invalid : ℚ) /
            ((process_FT_assemble st).accepted : ℚ)) ∧
      ((process_FT_assemble st).accepted = 0 →
        (process_FT_assemble st).error_rate = 0 ∧
        (process_FT_assemble st).warned = true) ∧
      (process_FT_assemble st).rejected =
        st.data_rejected + st.ancilla_rejected := by
  intro counts p st h
  have hacc : (process_FT_assemble st).accepted = st.ancilla_accepted := by
    by_cases h0 : st.ancilla_accepted = 0 <;> simp [process_FT_assemble, h0]
  refine ⟨?_, ?_, ?_, ?_⟩
  · simp [process_FT_results, h]
  · intro hne
    rw [hacc] at hne
    simp [process_FT_assemble, hne]
  · intro hz
    rw [hacc] at hz
    simp [process_FT_assemble, hz]
  · by_cases h0 : st.ancilla_accepted = 0 <;> simp [process_FT_assemble, h0]

/-- Witness for C6 at the empty histogram: the loop succeeds with the zero
state, giving accepted = 0, error rate 0, the diagnostic, and
rejected = 0 + 0. -/
theorem process_FT_results_error_rate_and_rejected_witness :
    process_FT_results [] { codewords := [] } =
      .ok (process_FT_assemble {}) ∧
    ((process_FT_assemble ({} : FTState)).accepted ≠ 0 →
      (process_FT_assemble ({} : FTState)).error_rate =
        ((process_FT_assemble ({} : FTState)).invalid : ℚ) /
          ((process_FT_assemble ({} : FTState)).accepted : ℚ)) ∧
    ((process_FT_assemble ({} : FTState)).accepted = 0 →
      (process_FT_assemble ({} : FTState)).error_rate = 0 ∧
      (process_FT_assemble ({} : FTState)).warned = true) ∧
    (process_FT_assemble ({} : FTState)).rejected =
      ({} : FTState).data_rejected + ({} : FTState).ancilla_rejected :=
  process_FT_results_error_rate_and_rejected [] { codewords := [] } {} rfl

/-- C7: the validation prologue of `count_valid_output_strings` raises
exactly when more than one of the mode flags is set, or when `single` or
`simple` is selected with a codeword set whose size is not one; with at
most one flag and a conforming codeword set it raises nothing. -/
theorem count_valid_output_strings_mode_errors :
    ∀ (codewords : List (List Bool)) (post_selection simple single : Bool)
      (single_bit : Int),
      (count_valid_output_strings_validation codewords post_selection simple
          single single_bit = .ok ()) ↔
        ¬((post_selection = true ∧ simple = true) ∨
          (post_selection = true ∧ single = true) ∨
          (simple = true ∧ single = true) ∨
          (single = true ∧ codewords.length ≠ 1) ∨
          (simple = true ∧ codewords.length ≠ 1)) := by
  intro codewords post_selection simple single single_bit
  cases post_selection <;> cases simple <;> cases single <;>
    by_cases h : codewords.length = 1 <;>
      simp_all [count_valid_output_strings_validation, validate_integer,
        Bind.bind, Except.bind, throw, throwThe, MonadExceptOf.throw,
        Pure.pure, Except.pure]

/-- C8: on every bad argument combination (non-integer location or length,
location < 1, length < 1, or length < location) `string_ancilla_mask`
*returns* an `Exception` object as its ordinary value — its result type
shows no error is raised, and the caller receives a non-string result. -/
theorem string_ancilla_mask_returns_exception_object :
    ∀ location length : PyArg,
      bad_mask_args location length →
      (string_ancilla_mask location length).isExc = true := by
  intro location length h
  cases location with
  | nonInt => rfl
  | int loc =>
    cases length with
    | nonInt => rfl
    | int len =>
      simp only [bad_mask_args] at h
      simp only [string_ancilla_mask]
      split_ifs <;> first | rfl | (exfalso; rcases h with h | h | h <;> omega)

/-- Witness for C8 at `location = 0`, `length = 7`. -/
theorem string_ancilla_mask_returns_exception_object_witness :
    (string_ancilla_mask (.int 0) (.int 7)).isExc = true :=
  string_ancilla_mask_returns_exception_object (.int 0) (.int 7)
    (Or.inl (by decide))

/-- C9: the shared logical-qubit validator accepts exactly the indices
`0 ≤ q ≤ d` — in particular the out-of-range index `q = d` passes — while
the data-register list built for `d` logical qubits has exactly `d`
entries, so indexing it at `d` is out of bounds. -/
theorem validate_logical_qubit_number_accepts_d :
    ∀ (d : Nat) (logical_qubit : Int),
      ((validate_logical_qubit_number d logical_qubit = .ok ()) ↔
        0 ≤ logical_qubit ∧ logical_qubit ≤ d) ∧
      validate_logical_qubit_number d d = .ok () ∧
      (data_registers d).length = d ∧
      (data_registers d).get? d = none := by
  intro d logical_qubit
  refine ⟨?_, ?_, ?_, ?_⟩
  · unfold validate_logical_qubit_number validate_integer
    split_ifs with h1 h2 <;>
      simp [Bind.bind, Except.bind, throw, throwThe, MonadExceptOf.throw,
        Pure.pure, Except.pure] <;>
      omega
  · unfold validate_logical_qubit_number validate_integer
    split_ifs with h1 h2 <;> first | rfl | (exfalso; omega)
  · simp [data_registers]
  · simp [data_registers]

/-- C10: `strings_AND_bitwise` computes the bitwise XOR of two equal-length
bit strings (the i-th output is '1' exactly when the inputs differ at i),
not the AND its name and docstring state, and raises on unequal lengths. -/
theorem strings_AND_bitwise_computes_xor :
    ∀ s1 s2 : List Bool,
      strings_AND_bitwise s1 s2 =
        if s1.length = s2.length then
          .ok (List.zipWith (fun a b => xor a b) s1 s2)
        else
          .error "When taking the logical AND of two strings they must both have the same length" := by
  intro s1 s2
  unfold strings_AND_bitwise
  by_cases h : s1.length = s2.length
  · rw [if_neg (not_not_intro h), if_pos h]
    exact congrArg Except.ok (bitwise_map_eq_zipWith s1 s2 h)
  · rw [if_pos h, if_neg h]

end SteaneCode
